import Mathlib

/-!
Shallow embedding of `dp-core/vr_btable.c` (big-table allocator).

The C module manages a logically contiguous table backed by several
physical memory chunks ("partitions").  The embedding below translates the
four functions of the file —

  * `vr_btable_get_partition`
  * `vr_btable_get_address`
  * `vr_btable_free`
  * `vr_btable_alloc`

— into Lean functions over explicit state.  Machine integers (`unsigned
int`) are modelled as `Nat` with explicit reduction `% 2^32` at every point
where the C program stores into or computes in a 32-bit quantity;
`total_mem` is a `uint64_t` in the C source, but it receives the value of
the 32-bit product `num_entries * entry_size`, which the embedding
reproduces faithfully.

The configuration constants `VR_SINGLE_ALLOC_LIMIT` (SAL),
`VR_KNOWN_BIG_MEM_LIMIT` (KBML) and `VR_MAX_BTABLE_ENTRIES` (MAXP) are
defined in the header `vr_btable.h`; they are carried as explicit `Nat`
parameters here, so every theorem quantifies over them (with the
side-conditions, such as `0 < SAL`, that any real build satisfies).

The external collaborators (`vr_page_alloc`, `vr_page_free`, `vr_zalloc`,
`vr_free`) are environment, not part of this file's source; they are
modelled operationally: an `oracle : Nat → Bool` decides whether the k-th
page allocation succeeds, a successful k-th call returns the fresh nonzero
base address `(k+1) * 2^32` (blocks never exceed `2^32` bytes in any real
configuration, so distinct bases never collide and `0` faithfully plays the
role of `NULL`), and a `Trace` records every provider interaction so that
claims about rollback and leak behaviour are statable.
-/

/-- Modulus of C `unsigned int` arithmetic. -/
def U32 : Nat := 2 ^ 32

/-- Mirrors `struct vr_btable_partition` (declared in `vr_btable.h`, used
throughout `vr_btable.c`): logical offset and byte size of one physical
chunk. -/
structure vr_btable_partition where
  vb_offset : Nat
  vb_mem_size : Nat
deriving DecidableEq, Repr

/-- The all-zero partition descriptor produced by `vr_zalloc`. -/
def zeroPartition : vr_btable_partition := ⟨0, 0⟩

/-- Mirrors `struct vr_btable`: `vb_mem` holds the base address of each
partition's chunk (0 encodes the C `NULL`), `vb_table_info` the partition
descriptors; both arrays have fixed capacity `VR_MAX_BTABLE_ENTRIES`, so the
lists here always have that length. -/
structure vr_btable where
  vb_mem : List Nat
  vb_table_info : List vr_btable_partition
  vb_partitions : Nat
  vb_entries : Nat
  vb_esize : Nat
deriving DecidableEq, Repr

/-- Record of the interactions with the external allocators during one
creation/destruction story: number of `vr_page_alloc` calls, the successful
page allocations (base, size) in call order, the `vr_page_free` calls
(base, size) in call order, and whether the table metadata was
`vr_zalloc`ed resp. `vr_free`d. -/
structure Trace where
  pallocCalls : Nat
  pallocs : List (Nat × Nat)
  pfrees : List (Nat × Nat)
  metaAllocd : Bool
  metaFreed : Bool
deriving DecidableEq, Repr

/-- The empty interaction record. -/
def Trace.empty : Trace := ⟨0, [], [], false, false⟩

/-- Model of the external `vr_page_alloc`: the k-th call (0-indexed)
returns the fresh nonzero base `(k+1) * 2^32` when the Block Provider
succeeds and `0` (`NULL`) when it fails, as decided by the oracle. -/
def vr_page_alloc (oracle : Nat → Bool) (k : Nat) : Nat :=
  if oracle k then (k + 1) * U32 else 0

/-- Descriptor of partition `i`, i.e. the value stored at
`table->vb_table_info[i]` (out-of-range reads never happen in the C code;
the default is the zero descriptor). -/
def infoAt (t : vr_btable) (i : Nat) : vr_btable_partition :=
  t.vb_table_info.getD i zeroPartition

/-- `vr_btable_get_partition`: `NULL` for an index at or above the fixed
capacity `VR_MAX_BTABLE_ENTRIES`, otherwise a reference to (here: the value
of) slot `partition` of `vb_table_info`. -/
def vr_btable_get_partition (MAXP : Nat) (table : vr_btable) (partition : Nat) :
    Option vr_btable_partition :=
  if partition ≥ MAXP then none
  else some (table.vb_table_info.getD partition zeroPartition)

/-- The range test `offset >= p->vb_offset && offset < p->vb_offset +
p->vb_mem_size` from `vr_btable_get_address`; the sum is 32-bit
arithmetic. -/
def containsOff (t : vr_btable) (i off : Nat) : Prop :=
  (infoAt t i).vb_offset ≤ off ∧
    off < ((infoAt t i).vb_offset + (infoAt t i).vb_mem_size) % U32

instance (t : vr_btable) (i off : Nat) : Decidable (containsOff t i off) :=
  inferInstanceAs (Decidable (_ ∧ _))

/-- Loop body of `vr_btable_get_address`: scan partitions from index `i`
while `i < table->vb_partitions`, breaking (result `NULL`) when
`vr_btable_get_partition` returns `NULL`.  `fuel` is only the structural
bound `table->vb_partitions - i`; with the initial fuel used by
`vr_btable_get_address` it never runs out before the loop condition
fails. -/
def getAddressGo (MAXP : Nat) (table : vr_btable) (offset : Nat) :
    Nat → Nat → Option Nat
  | 0, _ => none
  | fuel + 1, i =>
    if i < table.vb_partitions then
      match vr_btable_get_partition MAXP table i with
      | none => none
      | some p =>
        if p.vb_offset ≤ offset ∧ offset < (p.vb_offset + p.vb_mem_size) % U32 then
          some (table.vb_mem.getD i 0 + (offset - p.vb_offset))
        else
          getAddressGo MAXP table offset fuel (i + 1)
    else none

/-- `vr_btable_get_address`: translate a logical offset to the physical
address `vb_mem[i] + (offset - vb_offset_i)` of the first partition whose
range contains it, `NULL` (`none`) when the scan falls through. -/
def vr_btable_get_address (MAXP : Nat) (table : vr_btable) (offset : Nat) :
    Option Nat :=
  getAddressGo MAXP table offset table.vb_partitions 0

/-- `vr_btable_free`: a no-op on a `NULL` handle; otherwise scan all
`VR_MAX_BTABLE_ENTRIES` slots, `vr_page_free(vb_mem[i], vb_mem_size_i)`
every slot holding a non-`NULL` chunk, then `vr_free` the metadata. -/
def vr_btable_free (MAXP : Nat) (table : Option vr_btable) (tr : Trace) : Trace :=
  match table with
  | none => tr
  | some t =>
    let tr1 := (List.range MAXP).foldl
      (fun acc i =>
        if t.vb_mem.getD i 0 ≠ 0 then
          { acc with
            pfrees := acc.pfrees ++
              [(t.vb_mem.getD i 0, (t.vb_table_info.getD i zeroPartition).vb_mem_size)] }
        else acc) tr
    { tr1 with metaFreed := true }

/-- `total_mem = num_entries * entry_size`: both operands are 32-bit, so C
computes the product modulo `2^32` before widening it to the `uint64_t`
variable. -/
def totalMem (num_entries entry_size : Nat) : Nat :=
  (num_entries * entry_size) % U32

/-- `num_parts = total_mem / VR_SINGLE_ALLOC_LIMIT` (stored into a 32-bit
variable). -/
def fullParts (SAL num_entries entry_size : Nat) : Nat :=
  (totalMem num_entries entry_size / SAL) % U32

/-- `remainder = total_mem % VR_SINGLE_ALLOC_LIMIT` (stored into a 32-bit
variable). -/
def remMem (SAL num_entries entry_size : Nat) : Nat :=
  (totalMem num_entries entry_size % SAL) % U32

/-- `num_parts + !!remainder`, the partition count the plan needs (32-bit
arithmetic). -/
def plannedParts (SAL num_entries entry_size : Nat) : Nat :=
  (fullParts SAL num_entries entry_size +
    (if remMem SAL num_entries entry_size ≠ 0 then 1 else 0)) % U32

/-- The loop `for (i = 0; i < num_parts; i++)` of `vr_btable_alloc`:
allocate one chunk of exactly `SAL` bytes per full partition, record its
base in `vb_mem[i]` and its descriptor `(offset, SAL)`, and advance the
32-bit cumulative offset; stop (result flag `false`) as soon as a page
allocation fails.  Returns the loop-exit offset together with the table and
trace state. -/
def allocFull (SAL : Nat) (oracle : Nat → Bool) :
    Nat → Nat → Nat → vr_btable → Trace → Bool × Nat × vr_btable × Trace
  | 0, _, offset, t, tr => (true, offset, t, tr)
  | n + 1, i, offset, t, tr =>
    let base := vr_page_alloc oracle tr.pallocCalls
    let tr1 : Trace :=
      { tr with
        pallocCalls := tr.pallocCalls + 1,
        pallocs := if base ≠ 0 then tr.pallocs ++ [(base, SAL)] else tr.pallocs }
    let t1 : vr_btable := { t with vb_mem := t.vb_mem.set i base }
    if base = 0 then (false, offset, t1, tr1)
    else
      let t2 : vr_btable :=
        { t1 with vb_table_info := t1.vb_table_info.set i ⟨offset, SAL⟩ }
      allocFull SAL oracle n (i + 1) ((offset + SAL) % U32) t2 tr1

/-- `vr_btable_alloc`: reject totals above `VR_KNOWN_BIG_MEM_LIMIT`,
`vr_zalloc` the metadata (`metaOk` decides whether that succeeds), compute
the partition plan, reject plans beyond `VR_MAX_BTABLE_ENTRIES` or a
`VR_SINGLE_ALLOC_LIMIT` not divisible by `entry_size` when full partitions
exist (both rejections return without freeing the metadata, as the C code
does), then allocate the full partitions and the remainder partition,
rolling everything back through `vr_btable_free` if any page allocation
fails. -/
def vr_btable_alloc (SAL KBML MAXP : Nat) (oracle : Nat → Bool) (metaOk : Bool)
    (num_entries entry_size : Nat) : Option vr_btable × Trace :=
  if totalMem num_entries entry_size > KBML then (none, Trace.empty)
  else if metaOk = false then (none, Trace.empty)
  else
    let tr0 : Trace := { Trace.empty with metaAllocd := true }
    let t0 : vr_btable :=
      ⟨List.replicate MAXP 0, List.replicate MAXP zeroPartition, 0, 0, 0⟩
    let num_parts := fullParts SAL num_entries entry_size
    let remainder := remMem SAL num_entries entry_size
    if plannedParts SAL num_entries entry_size > MAXP then (none, tr0)
    else if num_parts ≠ 0 ∧ SAL % entry_size ≠ 0 then (none, tr0)
    else
      match allocFull SAL oracle num_parts 0 0 t0 tr0 with
      | (false, _, t1, tr1) => (none, vr_btable_free MAXP (some t1) tr1)
      | (true, offset, t1, tr1) =>
        let t2 := if num_parts ≠ 0 then { t1 with vb_partitions := num_parts } else t1
        if remainder ≠ 0 then
          let base := vr_page_alloc oracle tr1.pallocCalls
          let tr2 : Trace :=
            { tr1 with
              pallocCalls := tr1.pallocCalls + 1,
              pallocs := if base ≠ 0 then tr1.pallocs ++ [(base, remainder)]
                         else tr1.pallocs }
          let t3 := { t2 with vb_mem := t2.vb_mem.set num_parts base }
          if base = 0 then (none, vr_btable_free MAXP (some t3) tr2)
          else
            (some { t3 with
                vb_table_info := t3.vb_table_info.set num_parts ⟨offset, remainder⟩,
                vb_partitions := (t3.vb_partitions + 1) % U32,
                vb_entries := num_entries,
                vb_esize := entry_size }, tr2)
        else
          (some { t2 with vb_entries := num_entries, vb_esize := entry_size }, tr1)

/-- Sum of the sizes of the partitions in use. -/
def sumSizes (t : vr_btable) : Nat :=
  ((List.range t.vb_partitions).map fun i => (infoAt t i).vb_mem_size).sum

/-- A Block Provider that always succeeds. -/
def alwaysOk : Nat → Bool := fun _ => true

/-- A Block Provider whose k-th request (0-indexed) is the first to
fail. -/
def failsFrom (k : Nat) : Nat → Bool := fun j => decide (j < k)

/-- The table produced by `vr_btable_alloc 4096 2^25 16 alwaysOk true 1024 16`
(the spec's end-to-end example: four full partitions of 4096 bytes). -/
def tbl4 : vr_btable :=
  ⟨[4294967296, 8589934592, 12884901888, 17179869184,
      0, 0, 0, 0, 0, 0, 0, 0, 0, 0, 0, 0],
    [⟨0, 4096⟩, ⟨4096, 4096⟩, ⟨8192, 4096⟩, ⟨12288, 4096⟩,
      ⟨0, 0⟩, ⟨0, 0⟩, ⟨0, 0⟩, ⟨0, 0⟩, ⟨0, 0⟩, ⟨0, 0⟩,
      ⟨0, 0⟩, ⟨0, 0⟩, ⟨0, 0⟩, ⟨0, 0⟩, ⟨0, 0⟩, ⟨0, 0⟩],
    4, 1024, 16⟩

/-- The trace of that same creation. -/
def tr4 : Trace :=
  ⟨4, [(4294967296, 4096), (8589934592, 4096), (12884901888, 4096),
      (17179869184, 4096)], [], true, false⟩

/-! ### Basic arithmetic and list helpers -/

theorem U32_pos : 0 < U32 := by unfold U32; positivity

theorem list_getD_set_self {α : Type} :
    ∀ (l : List α) (i : Nat) (a d : α), i < l.length → (l.set i a).getD i d = a
  | [], _, _, _, h => absurd h (by simp)
  | _ :: _, 0, _, _, _ => rfl
  | _ :: l, i + 1, a, d, h =>
    list_getD_set_self l i a d (by simpa using h)

theorem list_getD_set_ne {α : Type} :
    ∀ (l : List α) (i j : Nat) (a d : α), i ≠ j → (l.set i a).getD j d = l.getD j d
  | [], _, _, _, _, _ => rfl
  | _ :: _, 0, 0, _, _, h => absurd rfl h
  | _ :: _, 0, _ + 1, _, _, _ => rfl
  | _ :: _, _ + 1, 0, _, _, _ => rfl
  | _ :: l, i + 1, j + 1, a, d, h =>
    list_getD_set_ne l i j a d (fun e => h (congrArg Nat.succ e))

theorem list_getD_replicate {α : Type} (a d : α) :
    ∀ (n i : Nat), (List.replicate n a).getD i d = if i < n then a else d
  | 0, i => by simp
  | n + 1, 0 => by simp [List.replicate_succ]
  | n + 1, i + 1 => by
    simpa [List.replicate_succ, Nat.succ_lt_succ_iff] using list_getD_replicate a d n i

theorem sum_map_range_succ (f : Nat → Nat) (n : Nat) :
    ((List.range (n + 1)).map f).sum = ((List.range n).map f).sum + f n := by
  rw [List.range_succ]; simp

theorem filterMap_if_lt_aux {α : Type} (h : Nat → α) (k : Nat) :
    ∀ m, m ≤ k →
      (List.range m).filterMap (fun j => if j < k then some (h j) else none) =
        (List.range m).map h := by
  intro m
  induction m with
  | zero => intro _; rfl
  | succ m ih =>
    intro hm
    rw [List.range_succ, List.filterMap_append, List.map_append,
      ih (Nat.le_of_succ_le hm)]
    simp [Nat.lt_of_succ_le hm]

theorem filterMap_if_lt {α : Type} (h : Nat → α) (k M : Nat) (hkM : k ≤ M) :
    (List.range M).filterMap (fun j => if j < k then some (h j) else none) =
      (List.range k).map h := by
  induction M with
  | zero =>
    have : k = 0 := Nat.le_zero.mp hkM
    subst this; rfl
  | succ M ih =>
    by_cases hk : k ≤ M
    · rw [List.range_succ, List.filterMap_append, ih hk]
      simp [Nat.not_lt.mpr hk]
    · have hkM' : k = M + 1 := Nat.le_antisymm hkM (Nat.not_le.mp hk)
      subst hkM'
      exact filterMap_if_lt_aux h (M + 1) (M + 1) le_rfl

/-! ### Characterization of `vr_btable_free` -/

theorem foldl_pfrees_char (P : Nat → Prop) [DecidablePred P] (v : Nat → Nat × Nat) :
    ∀ (l : List Nat) (acc : Trace),
      l.foldl (fun acc i =>
          if P i then { acc with pfrees := acc.pfrees ++ [v i] } else acc) acc =
        { acc with
          pfrees := acc.pfrees ++
            l.filterMap (fun i => if P i then some (v i) else none) } := by
  intro l
  induction l with
  | nil => intro acc; simp
  | cons x l ih =>
    intro acc
    rw [List.foldl_cons, List.filterMap_cons]
    by_cases hx : P x
    · rw [if_pos hx, if_pos hx, ih]
      simp
    · rw [if_neg hx, if_neg hx, ih]

theorem vr_btable_free_none (MAXP : Nat) (tr : Trace) :
    vr_btable_free MAXP none tr = tr := rfl

theorem vr_btable_free_some (MAXP : Nat) (t : vr_btable) (tr : Trace) :
    vr_btable_free MAXP (some t) tr =
      { tr with
        pfrees := tr.pfrees ++ (List.range MAXP).filterMap
          (fun i => if t.vb_mem.getD i 0 ≠ 0 then
              some (t.vb_mem.getD i 0, (infoAt t i).vb_mem_size) else none),
        metaFreed := true } := by
  show ({ (List.range MAXP).foldl _ tr with metaFreed := true } : Trace) = _
  rw [foldl_pfrees_char (fun i => t.vb_mem.getD i 0 ≠ 0)
    (fun i => (t.vb_mem.getD i 0, (t.vb_table_info.getD i zeroPartition).vb_mem_size))]
  rfl

/-! ### Characterization of the full-partition allocation loop -/

theorem allocFull_succ_ok (SAL : Nat) (oracle : Nat → Bool) (n i offset : Nat)
    (t : vr_btable) (tr : Trace) (hc : oracle tr.pallocCalls = true) :
    allocFull SAL oracle (n + 1) i offset t tr =
      allocFull SAL oracle n (i + 1) ((offset + SAL) % U32)
        { t with vb_mem := t.vb_mem.set i ((tr.pallocCalls + 1) * U32),
                 vb_table_info := t.vb_table_info.set i ⟨offset, SAL⟩ }
        { tr with pallocCalls := tr.pallocCalls + 1,
                  pallocs := tr.pallocs ++ [((tr.pallocCalls + 1) * U32, SAL)] } := by
  have hb : vr_page_alloc oracle tr.pallocCalls = (tr.pallocCalls + 1) * U32 := by
    simp [vr_page_alloc, hc]
  have hb0 : (tr.pallocCalls + 1) * U32 ≠ 0 :=
    Nat.mul_ne_zero (Nat.succ_ne_zero _) U32_pos.ne'
  simp only [allocFull, hb, if_neg hb0, if_pos hb0]

theorem allocFull_succ_fail (SAL : Nat) (oracle : Nat → Bool) (n i offset : Nat)
    (t : vr_btable) (tr : Trace) (hc : oracle tr.pallocCalls = false) :
    allocFull SAL oracle (n + 1) i offset t tr =
      (false, offset, { t with vb_mem := t.vb_mem.set i 0 },
        { tr with pallocCalls := tr.pallocCalls + 1 }) := by
  have hb : vr_page_alloc oracle tr.pallocCalls = 0 := by
    simp [vr_page_alloc, hc]
  simp only [allocFull, hb, if_pos rfl, ne_eq, not_true_eq_false, if_neg]
  simp

theorem allocFull_ok (SAL : Nat) (oracle : Nat → Bool) (n : Nat) :
    ∀ (i off : Nat) (t : vr_btable) (tr : Trace),
      (∀ j, j < n → oracle (tr.pallocCalls + j) = true) →
      off + n * SAL < U32 →
      i + n ≤ t.vb_mem.length →
      i + n ≤ t.vb_table_info.length →
      ∃ t' tr',
        allocFull SAL oracle n i off t tr = (true, off + n * SAL, t', tr') ∧
        (∀ j d, t'.vb_mem.getD j d =
          if i ≤ j ∧ j < i + n then (tr.pallocCalls + (j - i) + 1) * U32
          else t.vb_mem.getD j d) ∧
        (∀ j d, t'.vb_table_info.getD j d =
          if i ≤ j ∧ j < i + n then ⟨off + (j - i) * SAL, SAL⟩
          else t.vb_table_info.getD j d) ∧
        t'.vb_partitions = t.vb_partitions ∧
        t'.vb_entries = t.vb_entries ∧
        t'.vb_esize = t.vb_esize ∧
        t'.vb_mem.length = t.vb_mem.length ∧
        t'.vb_table_info.length = t.vb_table_info.length ∧
        tr'.pallocCalls = tr.pallocCalls + n ∧
        tr'.pallocs = tr.pallocs ++
          (List.range n).map (fun j => ((tr.pallocCalls + j + 1) * U32, SAL)) ∧
        tr'.pfrees = tr.pfrees ∧
        tr'.metaAllocd = tr.metaAllocd ∧
        tr'.metaFreed = tr.metaFreed := by
  induction n with
  | zero =>
    intro i off t tr _ _ _ _
    refine ⟨t, tr, by simp [allocFull], ?_, ?_, rfl, rfl, rfl, rfl, rfl, rfl,
      by simp, rfl, rfl, rfl⟩
    · intro j d; rw [if_neg (by omega)]
    · intro j d; rw [if_neg (by omega)]
  | succ n ih =>
    intro i off t tr hor hbound hlm hli
    have hc : oracle tr.pallocCalls = true := by
      simpa using hor 0 (Nat.succ_pos n)
    have hSd : SAL ≤ (n + 1) * SAL := Nat.le_mul_of_pos_left SAL (Nat.succ_pos n)
    have hoffS : off + SAL < U32 := lt_of_le_of_lt (Nat.add_le_add_left hSd off) hbound
    have hstep := allocFull_succ_ok SAL oracle n i off t tr hc
    have hbound' : (off + SAL) + n * SAL < U32 := by
      have h5 : off + SAL + n * SAL = off + (n + 1) * SAL := by ring
      rw [h5]; exact hbound
    obtain ⟨t', tr', heq, hmem, hinfo, hparts, hent, hes, hlm', hli', hcalls,
        hallocs, hfrees, hma, hmf⟩ :=
      ih (i + 1) (off + SAL)
        { t with vb_mem := t.vb_mem.set i ((tr.pallocCalls + 1) * U32),
                 vb_table_info := t.vb_table_info.set i ⟨off, SAL⟩ }
        { tr with pallocCalls := tr.pallocCalls + 1,
                  pallocs := tr.pallocs ++ [((tr.pallocCalls + 1) * U32, SAL)] }
        (by
          intro j hj
          show oracle (tr.pallocCalls + 1 + j) = true
          have h5 : tr.pallocCalls + 1 + j = tr.pallocCalls + (j + 1) := by omega
          rw [h5]
          exact hor (j + 1) (Nat.succ_lt_succ hj))
        hbound'
        (by
          show i + 1 + n ≤ (t.vb_mem.set i ((tr.pallocCalls + 1) * U32)).length
          rw [List.length_set]; omega)
        (by
          show i + 1 + n ≤ (t.vb_table_info.set i ⟨off, SAL⟩).length
          rw [List.length_set]; omega)
    dsimp only at hmem hinfo hparts hent hes hlm' hli' hcalls hallocs hfrees hma hmf
    have hiLen : i < t.vb_mem.length := by omega
    have hiLenI : i < t.vb_table_info.length := by omega
    refine ⟨t', tr', ?_, ?_, ?_, hparts, hent, hes, ?_, ?_,
      by rw [hcalls]; omega, ?_, hfrees, hma, hmf⟩
    · rw [hstep]
      have hmod : (off + SAL) % U32 = off + SAL := Nat.mod_eq_of_lt hoffS
      rw [hmod, heq]
      have h5 : off + SAL + n * SAL = off + (n + 1) * SAL := by ring
      rw [h5]
    · intro j d
      rw [hmem j d]
      by_cases h1 : i + 1 ≤ j ∧ j < i + 1 + n
      · rw [if_pos h1, if_pos (by omega : i ≤ j ∧ j < i + (n + 1))]
        have h5 : tr.pallocCalls + 1 + (j - (i + 1)) + 1 =
            tr.pallocCalls + (j - i) + 1 := by omega
        rw [h5]
      · rw [if_neg h1]
        by_cases h2 : j = i
        · rw [h2, list_getD_set_self _ _ _ _ hiLen,
            if_pos (by omega : i ≤ i ∧ i < i + (n + 1))]
          have h5 : tr.pallocCalls + (i - i) + 1 = tr.pallocCalls + 1 := by omega
          rw [h5]
        · rw [list_getD_set_ne _ _ _ _ _ (fun e => h2 e.symm),
            if_neg (by omega : ¬(i ≤ j ∧ j < i + (n + 1)))]
    · intro j d
      rw [hinfo j d]
      by_cases h1 : i + 1 ≤ j ∧ j < i + 1 + n
      · rw [if_pos h1, if_pos (by omega : i ≤ j ∧ j < i + (n + 1))]
        have hji : j - i = (j - (i + 1)) + 1 := by omega
        have h5 : off + SAL + (j - (i + 1)) * SAL = off + (j - i) * SAL := by
          rw [hji]; ring
        rw [h5]
      · rw [if_neg h1]
        by_cases h2 : j = i
        · rw [h2, list_getD_set_self _ _ _ _ hiLenI,
            if_pos (by omega : i ≤ i ∧ i < i + (n + 1))]
          have h5 : off + (i - i) * SAL = off := by simp
          rw [h5]
        · rw [list_getD_set_ne _ _ _ _ _ (fun e => h2 e.symm),
            if_neg (by omega : ¬(i ≤ j ∧ j < i + (n + 1)))]
    · rw [hlm', List.length_set]
    · rw [hli', List.length_set]
    · have hfun : (fun j => ((tr.pallocCalls + 1 + j + 1) * U32, SAL)) =
          ((fun j => ((tr.pallocCalls + j + 1) * U32, SAL)) ∘ Nat.succ) := by
        funext j
        simp only [Function.comp_apply]
        have h5 : tr.pallocCalls + 1 + j + 1 = tr.pallocCalls + (j + 1) + 1 := by
          omega
        rw [h5]
      rw [hallocs, hfun, List.append_assoc, List.singleton_append,
        List.range_succ_eq_map, List.map_cons, List.map_map]

theorem allocFull_fail (SAL : Nat) (oracle : Nat → Bool) (m : Nat) :
    ∀ (n i off : Nat) (t : vr_btable) (tr : Trace),
      (∀ j, j < m → oracle (tr.pallocCalls + j) = true) →
      oracle (tr.pallocCalls + m) = false →
      m < n →
      off + m * SAL < U32 →
      i + n ≤ t.vb_mem.length →
      i + n ≤ t.vb_table_info.length →
      ∃ t' tr',
        allocFull SAL oracle n i off t tr = (false, off + m * SAL, t', tr') ∧
        (∀ j d, t'.vb_mem.getD j d =
          if i ≤ j ∧ j < i + m then (tr.pallocCalls + (j - i) + 1) * U32
          else if j = i + m then 0
          else t.vb_mem.getD j d) ∧
        (∀ j d, t'.vb_table_info.getD j d =
          if i ≤ j ∧ j < i + m then ⟨off + (j - i) * SAL, SAL⟩
          else t.vb_table_info.getD j d) ∧
        t'.vb_partitions = t.vb_partitions ∧
        t'.vb_entries = t.vb_entries ∧
        t'.vb_esize = t.vb_esize ∧
        tr'.pallocCalls = tr.pallocCalls + m + 1 ∧
        tr'.pallocs = tr.pallocs ++
          (List.range m).map (fun j => ((tr.pallocCalls + j + 1) * U32, SAL)) ∧
        tr'.pfrees = tr.pfrees ∧
        tr'.metaAllocd = tr.metaAllocd ∧
        tr'.metaFreed = tr.metaFreed := by
  induction m with
  | zero =>
    intro n i off t tr _ hfail hmn _ hlm hli
    obtain ⟨n', rfl⟩ : ∃ n', n = n' + 1 := ⟨n - 1, by omega⟩
    have hc : oracle tr.pallocCalls = false := by simpa using hfail
    have hstep := allocFull_succ_fail SAL oracle n' i off t tr hc
    have hiLen : i < t.vb_mem.length := by omega
    refine ⟨{ t with vb_mem := t.vb_mem.set i 0 },
      { tr with pallocCalls := tr.pallocCalls + 1 }, ?_, ?_, ?_, rfl, rfl, rfl,
      by dsimp only, by simp, rfl, rfl, rfl⟩
    · rw [hstep]
      have h5 : off + 0 * SAL = off := by simp
      rw [h5]
    · intro j d
      dsimp only
      rw [if_neg (by omega)]
      by_cases h2 : j = i + 0
      · have h3 : j = i := by omega
        rw [if_pos h2, h3, list_getD_set_self _ _ _ _ hiLen]
      · rw [if_neg h2, list_getD_set_ne _ _ _ _ _ (by omega)]
    · intro j d
      dsimp only
      rw [if_neg (by omega)]
  | succ m ih =>
    intro n i off t tr hor hfail hmn hbound hlm hli
    obtain ⟨n', rfl⟩ : ∃ n', n = n' + 1 := ⟨n - 1, by omega⟩
    have hc : oracle tr.pallocCalls = true := by
      simpa using hor 0 (Nat.succ_pos m)
    have hSd : SAL ≤ (m + 1) * SAL := Nat.le_mul_of_pos_left SAL (Nat.succ_pos m)
    have hoffS : off + SAL < U32 := lt_of_le_of_lt (Nat.add_le_add_left hSd off) hbound
    have hstep := allocFull_succ_ok SAL oracle n' i off t tr hc
    have hbound' : (off + SAL) + m * SAL < U32 := by
      have h5 : off + SAL + m * SAL = off + (m + 1) * SAL := by ring
      rw [h5]; exact hbound
    obtain ⟨t', tr', heq, hmem, hinfo, hparts, hent, hes, hcalls,
        hallocs, hfrees, hma, hmf⟩ :=
      ih n' (i + 1) (off + SAL)
        { t with vb_mem := t.vb_mem.set i ((tr.pallocCalls + 1) * U32),
                 vb_table_info := t.vb_table_info.set i ⟨off, SAL⟩ }
        { tr with pallocCalls := tr.pallocCalls + 1,
                  pallocs := tr.pallocs ++ [((tr.pallocCalls + 1) * U32, SAL)] }
        (by
          intro j hj
          show oracle (tr.pallocCalls + 1 + j) = true
          have h5 : tr.pallocCalls + 1 + j = tr.pallocCalls + (j + 1) := by omega
          rw [h5]
          exact hor (j + 1) (Nat.succ_lt_succ hj))
        (by
          show oracle (tr.pallocCalls + 1 + m) = false
          have h5 : tr.pallocCalls + 1 + m = tr.pallocCalls + (m + 1) := by omega
          rw [h5]
          exact hfail)
        (by omega)
        hbound'
        (by
          show i + 1 + n' ≤ (t.vb_mem.set i ((tr.pallocCalls + 1) * U32)).length
          rw [List.length_set]; omega)
        (by
          show i + 1 + n' ≤ (t.vb_table_info.set i ⟨off, SAL⟩).length
          rw [List.length_set]; omega)
    dsimp only at hmem hinfo hparts hent hes hcalls hallocs hfrees hma hmf
    have hiLen : i < t.vb_mem.length := by omega
    have hiLenI : i < t.vb_table_info.length := by omega
    refine ⟨t', tr', ?_, ?_, ?_, hparts, hent, hes,
      by rw [hcalls]; omega, ?_, hfrees, hma, hmf⟩
    · rw [hstep]
      have hmod : (off + SAL) % U32 = off + SAL := Nat.mod_eq_of_lt hoffS
      rw [hmod, heq]
      have h5 : off + SAL + m * SAL = off + (m + 1) * SAL := by ring
      rw [h5]
    · intro j d
      rw [hmem j d]
      by_cases h1 : i + 1 ≤ j ∧ j < i + 1 + m
      · rw [if_pos h1, if_pos (by omega : i ≤ j ∧ j < i + (m + 1))]
        have h5 : tr.pallocCalls + 1 + (j - (i + 1)) + 1 =
            tr.pallocCalls + (j - i) + 1 := by omega
        rw [h5]
      · rw [if_neg h1]
        by_cases h2 : j = i + 1 + m
        · rw [if_pos h2, if_neg (by omega : ¬(i ≤ j ∧ j < i + (m + 1))),
            if_pos (by omega : j = i + (m + 1))]
        · rw [if_neg h2]
          by_cases h3 : j = i
          · rw [h3, list_getD_set_self _ _ _ _ hiLen,
              if_pos (by omega : i ≤ i ∧ i < i + (m + 1))]
            have h5 : tr.pallocCalls + (i - i) + 1 = tr.pallocCalls + 1 := by omega
            rw [h5]
          · rw [list_getD_set_ne _ _ _ _ _ (fun e => h3 e.symm),
              if_neg (by omega : ¬(i ≤ j ∧ j < i + (m + 1))),
              if_neg (by omega : ¬(j = i + (m + 1)))]
    · intro j d
      rw [hinfo j d]
      by_cases h1 : i + 1 ≤ j ∧ j < i + 1 + m
      · rw [if_pos h1, if_pos (by omega : i ≤ j ∧ j < i + (m + 1))]
        have hji : j - i = (j - (i + 1)) + 1 := by omega
        have h5 : off + SAL + (j - (i + 1)) * SAL = off + (j - i) * SAL := by
          rw [hji]; ring
        rw [h5]
      · rw [if_neg h1]
        by_cases h2 : j = i
        · rw [h2, list_getD_set_self _ _ _ _ hiLenI,
            if_pos (by omega : i ≤ i ∧ i < i + (m + 1))]
          have h5 : off + (i - i) * SAL = off := by simp
          rw [h5]
        · rw [list_getD_set_ne _ _ _ _ _ (fun e => h2 e.symm),
            if_neg (by omega : ¬(i ≤ j ∧ j < i + (m + 1)))]
    · have hfun : (fun j => ((tr.pallocCalls + 1 + j + 1) * U32, SAL)) =
          ((fun j => ((tr.pallocCalls + j + 1) * U32, SAL)) ∘ Nat.succ) := by
        funext j
        simp only [Function.comp_apply]
        have h5 : tr.pallocCalls + 1 + j + 1 = tr.pallocCalls + (j + 1) + 1 := by
          omega
        rw [h5]
      rw [hallocs, hfun, List.append_assoc, List.singleton_append,
        List.range_succ_eq_map, List.map_cons, List.map_map]

theorem allocFull_oracle_true (SAL : Nat) (oracle : Nat → Bool) :
    ∀ (n i off : Nat) (t : vr_btable) (tr : Trace),
      (allocFull SAL oracle n i off t tr).1 = true →
      ∀ j, j < n → oracle (tr.pallocCalls + j) = true := by
  intro n
  induction n with
  | zero => intro i off t tr _ j hj; omega
  | succ n ih =>
    intro i off t tr h j hj
    by_cases hc : oracle tr.pallocCalls = true
    · rw [allocFull_succ_ok SAL oracle n i off t tr hc] at h
      match j with
      | 0 => exact hc
      | j + 1 =>
        have h5 := ih _ _ _ _ h j (by omega)
        have h6 : tr.pallocCalls + 1 + j = tr.pallocCalls + (j + 1) := by omega
        rw [← h6]
        simpa using h5
    · have hc' : oracle tr.pallocCalls = false := by
        revert hc; cases oracle tr.pallocCalls <;> simp
      rw [allocFull_succ_fail SAL oracle n i off t tr hc'] at h
      simp at h

/-! ### Arithmetic facts about the partition plan -/

theorem totalMem_lt (ne es : Nat) : totalMem ne es < U32 :=
  Nat.mod_lt _ U32_pos

theorem fullParts_eq (SAL ne es : Nat) :
    fullParts SAL ne es = totalMem ne es / SAL :=
  Nat.mod_eq_of_lt (lt_of_le_of_lt (Nat.div_le_self _ _) (totalMem_lt ne es))

theorem remMem_eq (SAL ne es : Nat) :
    remMem SAL ne es = totalMem ne es % SAL :=
  Nat.mod_eq_of_lt (lt_of_le_of_lt (Nat.mod_le _ _) (totalMem_lt ne es))

theorem fullParts_mul_le (SAL ne es : Nat) :
    fullParts SAL ne es * SAL ≤ totalMem ne es := by
  rw [fullParts_eq]
  exact Nat.div_mul_le_self _ _

theorem total_decomp (SAL ne es : Nat) :
    fullParts SAL ne es * SAL + remMem SAL ne es = totalMem ne es := by
  rw [fullParts_eq, remMem_eq]
  have h5 := Nat.div_add_mod (totalMem ne es) SAL
  rw [Nat.mul_comm] at h5
  omega

theorem rem_lt_SAL (SAL ne es : Nat) (hS : 0 < SAL) :
    remMem SAL ne es < SAL := by
  rw [remMem_eq]
  exact Nat.mod_lt _ hS

theorem fullParts_succ_lt (SAL ne es : Nat) (hS : 0 < SAL)
    (hr : remMem SAL ne es ≠ 0) : fullParts SAL ne es + 1 < U32 := by
  have h2 : 2 ≤ SAL := by
    by_contra hlt
    have h1 : SAL = 1 := by omega
    apply hr
    rw [h1]
    unfold remMem
    simp [Nat.mod_one]
  have h3 : fullParts SAL ne es ≤ totalMem ne es / 2 := by
    rw [fullParts_eq]
    exact Nat.div_le_div_left h2 (by norm_num)
  have h4 : totalMem ne es < U32 := totalMem_lt ne es
  have hU : U32 = 4294967296 := rfl
  omega

theorem plannedParts_eq (SAL ne es : Nat) (hS : 0 < SAL) :
    plannedParts SAL ne es =
      fullParts SAL ne es + (if remMem SAL ne es ≠ 0 then 1 else 0) := by
  unfold plannedParts
  by_cases hr : remMem SAL ne es ≠ 0
  · rw [if_pos hr]
    exact Nat.mod_eq_of_lt (fullParts_succ_lt SAL ne es hS hr)
  · rw [if_neg hr]
    have h5 : fullParts SAL ne es < U32 := Nat.mod_lt _ U32_pos
    exact Nat.mod_eq_of_lt (by omega)

theorem map_range_congr {α : Type} (f g : Nat → α) (n : Nat)
    (h : ∀ j, j < n → f j = g j) :
    (List.range n).map f = (List.range n).map g := by
  induction n with
  | zero => rfl
  | succ n ih =>
    rw [List.range_succ, List.map_append, List.map_append,
      ih (fun j hj => h j (by omega))]
    simp [h n (by omega)]

/-! ### Characterization of a successful `vr_btable_alloc` -/

theorem alloc_some_char (SAL KBML MAXP : Nat) (oracle : Nat → Bool) (metaOk : Bool)
    (ne es : Nat) (t : vr_btable) (tr : Trace) (hS : 0 < SAL)
    (h : vr_btable_alloc SAL KBML MAXP oracle metaOk ne es = (some t, tr)) :
    metaOk = true ∧
    totalMem ne es ≤ KBML ∧
    plannedParts SAL ne es ≤ MAXP ∧
    (fullParts SAL ne es ≠ 0 → SAL % es = 0) ∧
    t.vb_partitions = plannedParts SAL ne es ∧
    t.vb_entries = ne ∧
    t.vb_esize = es ∧
    (∀ j, infoAt t j =
      if j < fullParts SAL ne es then ⟨j * SAL, SAL⟩
      else if j = fullParts SAL ne es ∧ remMem SAL ne es ≠ 0 then
        ⟨fullParts SAL ne es * SAL, remMem SAL ne es⟩
      else zeroPartition) ∧
    (∀ j, t.vb_mem.getD j 0 = if j < t.vb_partitions then (j + 1) * U32 else 0) ∧
    t.vb_mem.length = MAXP ∧
    t.vb_table_info.length = MAXP ∧
    tr.pallocCalls = t.vb_partitions ∧
    tr.pallocs = (List.range t.vb_partitions).map
      (fun j => ((j + 1) * U32,
        if j < fullParts SAL ne es then SAL else remMem SAL ne es)) ∧
    tr.pfrees = [] ∧
    tr.metaAllocd = true ∧
    tr.metaFreed = false := by
  have hplan := plannedParts_eq SAL ne es hS
  unfold vr_btable_alloc at h
  by_cases hg1 : totalMem ne es > KBML
  · rw [if_pos hg1] at h; simp at h
  rw [if_neg hg1] at h
  by_cases hm : metaOk = false
  · rw [if_pos hm] at h; simp at h
  rw [if_neg hm] at h
  have hmeta : metaOk = true := by revert hm; cases metaOk <;> simp
  simp only [Trace.empty] at h
  by_cases hg2 : plannedParts SAL ne es > MAXP
  · rw [if_pos hg2] at h; simp at h
  rw [if_neg hg2] at h
  by_cases hg3 : fullParts SAL ne es ≠ 0 ∧ SAL % es ≠ 0
  · rw [if_pos hg3] at h; simp at h
  rw [if_neg hg3] at h
  have hplanM : plannedParts SAL ne es ≤ MAXP := Nat.le_of_not_lt hg2
  have hnpM : fullParts SAL ne es ≤ MAXP := by
    rw [hplan] at hplanM
    by_cases hr : remMem SAL ne es ≠ 0
    · rw [if_pos hr] at hplanM; omega
    · rw [if_neg hr] at hplanM; omega
  have hmis : fullParts SAL ne es ≠ 0 → SAL % es = 0 := by
    intro hnp
    by_contra hx
    exact hg3 ⟨hnp, hx⟩
  rcases hE : allocFull SAL oracle (fullParts SAL ne es) 0 0
      ⟨List.replicate MAXP 0, List.replicate MAXP zeroPartition, 0, 0, 0⟩
      ⟨0, [], [], true, false⟩ with ⟨b, off1, t1, tr1⟩
  rw [hE] at h
  cases b
  · simp at h
  · simp only [] at h
    have hb1 : (allocFull SAL oracle (fullParts SAL ne es) 0 0
        ⟨List.replicate MAXP 0, List.replicate MAXP zeroPartition, 0, 0, 0⟩
        ⟨0, [], [], true, false⟩).1 = true := by rw [hE]
    have horacle : ∀ j, j < fullParts SAL ne es → oracle j = true := by
      intro j hj
      have h5 := allocFull_oracle_true SAL oracle (fullParts SAL ne es) 0 0 _ _ hb1 j hj
      simpa using h5
    have hbound : (0 : Nat) + fullParts SAL ne es * SAL < U32 := by
      have h5 := fullParts_mul_le SAL ne es
      have h6 := totalMem_lt ne es
      omega
    obtain ⟨t', tr', heq, hmem, hinfo, hparts, hent, hes2, hlm', hli', hcalls,
        hallocs, hfrees, hma, hmf⟩ :=
      allocFull_ok SAL oracle (fullParts SAL ne es) 0 0
        ⟨List.replicate MAXP 0, List.replicate MAXP zeroPartition, 0, 0, 0⟩
        ⟨0, [], [], true, false⟩
        (by intro j hj; show oracle (0 + j) = true; simpa using horacle j hj)
        hbound
        (by show 0 + fullParts SAL ne es ≤ (List.replicate MAXP (0 : Nat)).length
            rw [List.length_replicate]; omega)
        (by show 0 + fullParts SAL ne es ≤ (List.replicate MAXP zeroPartition).length
            rw [List.length_replicate]; omega)
    dsimp only at hmem hinfo hparts hent hes2 hlm' hli' hcalls hallocs hfrees hma hmf
    rw [heq] at hE
    simp only [Prod.mk.injEq, true_and] at hE
    obtain ⟨hoff1, ht1, htr1⟩ := hE
    subst hoff1; subst ht1; subst htr1
    rw [List.length_replicate] at hlm' hli'
    have hcalls' : tr'.pallocCalls = fullParts SAL ne es := by rw [hcalls]; omega
    have hmem' : ∀ j, t'.vb_mem.getD j 0 =
        if j < fullParts SAL ne es then (j + 1) * U32 else 0 := by
      intro j
      rw [hmem j 0]
      by_cases hj : j < fullParts SAL ne es
      · rw [if_pos (by omega : 0 ≤ j ∧ j < 0 + fullParts SAL ne es), if_pos hj]
        congr 1
        omega
      · rw [if_neg (by omega), if_neg hj, list_getD_replicate]
        simp
    have hinfo' : ∀ j, t'.vb_table_info.getD j zeroPartition =
        if j < fullParts SAL ne es then ⟨j * SAL, SAL⟩ else zeroPartition := by
      intro j
      rw [hinfo j zeroPartition]
      by_cases hj : j < fullParts SAL ne es
      · rw [if_pos (by omega : 0 ≤ j ∧ j < 0 + fullParts SAL ne es), if_pos hj]
        congr 1
        simp
      · rw [if_neg (by omega), if_neg hj, list_getD_replicate]
        simp
    have hallocs' : tr'.pallocs = (List.range (fullParts SAL ne es)).map
        (fun j => ((j + 1) * U32, SAL)) := by
      rw [hallocs, List.nil_append]
      exact map_range_congr _ _ _ (fun j hj => by
        have h5 : 0 + j + 1 = j + 1 := by omega
        rw [h5])
    have hT2 : (if fullParts SAL ne es ≠ 0 then
        { t' with vb_partitions := fullParts SAL ne es } else t') =
        { t' with vb_partitions := fullParts SAL ne es } := by
      by_cases hnp : fullParts SAL ne es ≠ 0
      · rw [if_pos hnp]
      · rw [if_neg hnp]
        have h0 : fullParts SAL ne es = 0 := by omega
        rw [h0, ← hparts]
    rw [hT2] at h
    by_cases hr : remMem SAL ne es ≠ 0
    · rw [if_pos hr, hcalls'] at h
      by_cases horc : oracle (fullParts SAL ne es) = true
      · have hbase : vr_page_alloc oracle (fullParts SAL ne es) =
            (fullParts SAL ne es + 1) * U32 := by
          simp [vr_page_alloc, horc]
        have hb0 : (fullParts SAL ne es + 1) * U32 ≠ 0 :=
          Nat.mul_ne_zero (Nat.succ_ne_zero _) U32_pos.ne'
        rw [hbase, if_neg hb0, if_pos hb0] at h
        dsimp only at h
        simp only [Option.some.injEq, Prod.mk.injEq] at h
        obtain ⟨ht, htr⟩ := h
        subst ht; subst htr
        have hnp1 : (fullParts SAL ne es + 1) % U32 = fullParts SAL ne es + 1 :=
          Nat.mod_eq_of_lt (fullParts_succ_lt SAL ne es hS hr)
        have hplan' : plannedParts SAL ne es = fullParts SAL ne es + 1 := by
          rw [hplan, if_pos hr]
        have hnpLen : fullParts SAL ne es < MAXP := by
          rw [hplan'] at hplanM; omega
        refine ⟨hmeta, by omega, hplanM, hmis, ?_, rfl, rfl, ?_, ?_, ?_, ?_, ?_,
          ?_, ?_, ?_, ?_⟩
        · dsimp only
          rw [hnp1, hplan']
        · intro j
          unfold infoAt
          dsimp only
          by_cases hj : j = fullParts SAL ne es
          · rw [hj, list_getD_set_self _ _ _ _ (by omega),
              if_neg (by omega), if_pos ⟨rfl, hr⟩]
            congr 1
            simp
          · rw [list_getD_set_ne _ _ _ _ _ (fun e => hj e.symm), hinfo' j]
            by_cases hj2 : j < fullParts SAL ne es
            · rw [if_pos hj2, if_pos hj2]
            · rw [if_neg hj2, if_neg hj2, if_neg (by tauto)]
        · intro j
          dsimp only
          rw [hnp1]
          by_cases hj : j = fullParts SAL ne es
          · rw [hj, list_getD_set_self _ _ _ _ (by omega), if_pos (by omega)]
          · rw [list_getD_set_ne _ _ _ _ _ (fun e => hj e.symm), hmem' j]
            by_cases hj2 : j < fullParts SAL ne es
            · rw [if_pos hj2, if_pos (by omega)]
            · rw [if_neg hj2, if_neg (by omega)]
        · dsimp only
          rw [List.length_set, hlm']
        · dsimp only
          rw [List.length_set, hli']
        · dsimp only
          rw [hnp1]
        · dsimp only
          rw [hnp1, hallocs', List.range_succ, List.map_append]
          congr 1
          · exact map_range_congr _ _ _ (fun j hj => by rw [if_pos hj])
          · simp
        · dsimp only
          exact hfrees
        · dsimp only
          exact hma
        · dsimp only
          exact hmf
      · have horc' : oracle (fullParts SAL ne es) = false := by
          revert horc; cases oracle (fullParts SAL ne es) <;> simp
        have hbase : vr_page_alloc oracle (fullParts SAL ne es) = 0 := by
          simp [vr_page_alloc, horc']
        rw [hbase, if_pos rfl] at h
        simp at h
    · rw [if_neg hr] at h
      simp only [Option.some.injEq, Prod.mk.injEq] at h
      obtain ⟨ht, htr⟩ := h
      subst ht; subst htr
      have hplan' : plannedParts SAL ne es = fullParts SAL ne es := by
        rw [hplan, if_neg hr]; omega
      refine ⟨hmeta, by omega, hplanM, hmis, ?_, rfl, rfl, ?_, ?_, ?_, ?_, ?_,
        ?_, ?_, ?_, ?_⟩
      · dsimp only
        rw [hplan']
      · intro j
        unfold infoAt
        dsimp only
        rw [hinfo' j]
        by_cases hj : j < fullParts SAL ne es
        · rw [if_pos hj, if_pos hj]
        · rw [if_neg hj, if_neg hj, if_neg (by tauto)]
      · intro j
        dsimp only
        exact hmem' j
      · dsimp only
        exact hlm'
      · dsimp only
        exact hli'
      · dsimp only
        rw [hcalls']
      · dsimp only
        rw [hallocs']
        exact (map_range_congr _ _ _ (fun j hj => by rw [if_pos hj])).symm
      · dsimp only
        exact hfrees
      · dsimp only
        exact hma
      · dsimp only
        exact hmf

/-! ### Characterization of a `vr_btable_alloc` run whose k-th page allocation fails -/

theorem pfrees_formula (MAXP k SAL : Nat) (t3 : vr_btable) (hkM : k ≤ MAXP)
    (hmem : ∀ j, t3.vb_mem.getD j 0 = if j < k then (j + 1) * U32 else 0)
    (hsize : ∀ j, j < k → (infoAt t3 j).vb_mem_size = SAL) :
    (List.range MAXP).filterMap
      (fun i => if t3.vb_mem.getD i 0 ≠ 0 then
          some (t3.vb_mem.getD i 0, (infoAt t3 i).vb_mem_size) else none) =
      (List.range k).map (fun j => ((j + 1) * U32, SAL)) := by
  have hgfun : (fun i => if t3.vb_mem.getD i 0 ≠ 0 then
      some (t3.vb_mem.getD i 0, (infoAt t3 i).vb_mem_size) else none) =
      (fun j => if j < k then some (((j + 1) * U32, SAL) : Nat × Nat) else none) := by
    funext j
    by_cases hj : j < k
    · have h1 : t3.vb_mem.getD j 0 = (j + 1) * U32 := by rw [hmem j, if_pos hj]
      have h2 : (j + 1) * U32 ≠ 0 :=
        Nat.mul_ne_zero (Nat.succ_ne_zero _) U32_pos.ne'
      rw [h1, if_pos h2, hsize j hj, if_pos hj]
    · have h1 : t3.vb_mem.getD j 0 = 0 := by rw [hmem j, if_neg hj]
      rw [h1, if_neg (by simp), if_neg hj]
  rw [hgfun]
  exact filterMap_if_lt _ k MAXP hkM

theorem free_rollback (MAXP k SAL : Nat) (t3 : vr_btable) (tr2 : Trace)
    (hkM : k ≤ MAXP)
    (hmem : ∀ j, t3.vb_mem.getD j 0 = if j < k then (j + 1) * U32 else 0)
    (hsize : ∀ j, j < k → (infoAt t3 j).vb_mem_size = SAL) :
    vr_btable_free MAXP (some t3) tr2 =
      { tr2 with
        pfrees := tr2.pfrees ++
          (List.range k).map (fun j => ((j + 1) * U32, SAL)),
        metaFreed := true } := by
  rw [vr_btable_free_some, pfrees_formula MAXP k SAL t3 hkM hmem hsize]

theorem alloc_fail_char (SAL KBML MAXP : Nat) (oracle : Nat → Bool) (ne es k : Nat)
    (hS : 0 < SAL)
    (hg1 : totalMem ne es ≤ KBML)
    (hg2 : plannedParts SAL ne es ≤ MAXP)
    (hg3 : fullParts SAL ne es ≠ 0 → SAL % es = 0)
    (hor : ∀ j, j < k → oracle j = true)
    (hk : oracle k = false)
    (hkp : k < plannedParts SAL ne es) :
    vr_btable_alloc SAL KBML MAXP oracle true ne es =
      (none, ⟨k + 1,
        (List.range k).map (fun j => ((j + 1) * U32, SAL)),
        (List.range k).map (fun j => ((j + 1) * U32, SAL)),
        true, true⟩) := by
  have hplan := plannedParts_eq SAL ne es hS
  have hnpM : fullParts SAL ne es ≤ MAXP := by
    rw [hplan] at hg2
    by_cases hr : remMem SAL ne es ≠ 0
    · rw [if_pos hr] at hg2; omega
    · rw [if_neg hr] at hg2; omega
  have hkM : k ≤ MAXP := by omega
  unfold vr_btable_alloc
  rw [if_neg (by omega : ¬totalMem ne es > KBML), if_neg (by simp : ¬(true = false))]
  simp only [Trace.empty]
  rw [if_neg (by omega : ¬plannedParts SAL ne es > MAXP),
    if_neg (fun hx => hx.2 (hg3 hx.1))]
  rcases Nat.lt_or_ge k (fullParts SAL ne es) with hkn | hkn
  · have hbound : (0 : Nat) + k * SAL < U32 := by
      have h5 := fullParts_mul_le SAL ne es
      have h6 := totalMem_lt ne es
      have h7 : k * SAL ≤ fullParts SAL ne es * SAL :=
        Nat.mul_le_mul_right SAL (by omega)
      omega
    obtain ⟨t', tr', heq, hmem, hinfo, hparts, hent, hes2, hcalls,
        hallocs, hfrees, hma, hmf⟩ :=
      allocFull_fail SAL oracle k (fullParts SAL ne es) 0 0
        ⟨List.replicate MAXP 0, List.replicate MAXP zeroPartition, 0, 0, 0⟩
        ⟨0, [], [], true, false⟩
        (by intro j hj; show oracle (0 + j) = true; simpa using hor j hj)
        (by show oracle (0 + k) = false; simpa using hk)
        hkn
        hbound
        (by show 0 + fullParts SAL ne es ≤ (List.replicate MAXP (0 : Nat)).length
            rw [List.length_replicate]; omega)
        (by show 0 + fullParts SAL ne es ≤ (List.replicate MAXP zeroPartition).length
            rw [List.length_replicate]; omega)
    dsimp only at hmem hinfo hparts hent hes2 hcalls hallocs hfrees hma hmf
    rw [heq]
    simp only []
    have hmem' : ∀ j, t'.vb_mem.getD j 0 = if j < k then (j + 1) * U32 else 0 := by
      intro j
      rw [hmem j 0]
      by_cases hj : j < k
      · rw [if_pos (by omega : 0 ≤ j ∧ j < 0 + k), if_pos hj]
        congr 1
        omega
      · rw [if_neg (by omega), if_neg hj]
        by_cases hj2 : j = 0 + k
        · rw [if_pos hj2]
        · rw [if_neg hj2, list_getD_replicate]
          simp
    have hsize' : ∀ j, j < k → (infoAt t' j).vb_mem_size = SAL := by
      intro j hj
      unfold infoAt
      rw [hinfo j zeroPartition, if_pos (by omega : 0 ≤ j ∧ j < 0 + k)]
    rw [free_rollback MAXP k SAL t' tr' hkM hmem' hsize']
    have e1 : tr'.pallocCalls = k + 1 := by omega
    have e2 : tr'.pallocs = (List.range k).map (fun j => ((j + 1) * U32, SAL)) := by
      rw [hallocs, List.nil_append]
      exact map_range_congr _ _ _ (fun j hj => by
        have h5 : 0 + j + 1 = j + 1 := by omega
        rw [h5])
    rw [e1, e2, hfrees, List.nil_append, hma]
  · have hrem : remMem SAL ne es ≠ 0 ∧ k = fullParts SAL ne es := by
      rw [hplan] at hkp
      by_cases hr : remMem SAL ne es ≠ 0
      · rw [if_pos hr] at hkp; exact ⟨hr, by omega⟩
      · rw [if_neg hr] at hkp; omega
    obtain ⟨hr, hknp⟩ := hrem
    subst hknp
    have hbound : (0 : Nat) + fullParts SAL ne es * SAL < U32 := by
      have h5 := fullParts_mul_le SAL ne es
      have h6 := totalMem_lt ne es
      omega
    obtain ⟨t', tr', heq, hmem, hinfo, hparts, hent, hes2, hlm', hli', hcalls,
        hallocs, hfrees, hma, hmf⟩ :=
      allocFull_ok SAL oracle (fullParts SAL ne es) 0 0
        ⟨List.replicate MAXP 0, List.replicate MAXP zeroPartition, 0, 0, 0⟩
        ⟨0, [], [], true, false⟩
        (by intro j hj; show oracle (0 + j) = true; simpa using hor j hj)
        hbound
        (by show 0 + fullParts SAL ne es ≤ (List.replicate MAXP (0 : Nat)).length
            rw [List.length_replicate]; omega)
        (by show 0 + fullParts SAL ne es ≤ (List.replicate MAXP zeroPartition).length
            rw [List.length_replicate]; omega)
    dsimp only at hmem hinfo hparts hent hes2 hlm' hli' hcalls hallocs hfrees hma hmf
    rw [List.length_replicate] at hlm' hli'
    have hnpLen : fullParts SAL ne es < MAXP := by
      rw [hplan, if_pos hr] at hg2; omega
    have hcalls' : tr'.pallocCalls = fullParts SAL ne es := by rw [hcalls]; omega
    have hT2 : (if fullParts SAL ne es ≠ 0 then
        { t' with vb_partitions := fullParts SAL ne es } else t') =
        { t' with vb_partitions := fullParts SAL ne es } := by
      by_cases hnp : fullParts SAL ne es ≠ 0
      · rw [if_pos hnp]
      · rw [if_neg hnp]
        have h0 : fullParts SAL ne es = 0 := by omega
        rw [h0, ← hparts]
    have hbase : vr_page_alloc oracle (fullParts SAL ne es) = 0 := by
      simp [vr_page_alloc, hk]
    rw [heq]
    simp only []
    rw [hT2, if_pos hr, hcalls', hbase, if_pos rfl,
      if_neg (by simp : ¬((0 : Nat) ≠ 0))]
    dsimp only
    have hmem' : ∀ j, (t'.vb_mem.set (fullParts SAL ne es) 0).getD j 0 =
        if j < fullParts SAL ne es then (j + 1) * U32 else 0 := by
      intro j
      by_cases hj : j = fullParts SAL ne es
      · rw [hj, list_getD_set_self _ _ _ _ (by omega), if_neg (by omega)]
      · rw [list_getD_set_ne _ _ _ _ _ (fun e => hj e.symm), hmem j 0]
        by_cases hj2 : j < fullParts SAL ne es
        · rw [if_pos (by omega : 0 ≤ j ∧ j < 0 + fullParts SAL ne es), if_pos hj2]
          congr 1
          omega
        · rw [if_neg (by omega), if_neg hj2, list_getD_replicate]
          simp
    have hsize' : ∀ j, j < fullParts SAL ne es →
        (t'.vb_table_info.getD j zeroPartition).vb_mem_size = SAL := by
      intro j hj
      rw [hinfo j zeroPartition,
        if_pos (by omega : 0 ≤ j ∧ j < 0 + fullParts SAL ne es)]
    rw [free_rollback MAXP (fullParts SAL ne es) SAL
      ⟨t'.vb_mem.set (fullParts SAL ne es) 0, t'.vb_table_info,
        fullParts SAL ne es, t'.vb_entries, t'.vb_esize⟩
      ⟨fullParts SAL ne es + 1, tr'.pallocs, tr'.pfrees, tr'.metaAllocd,
        tr'.metaFreed⟩
      (by omega) hmem' hsize']
    dsimp only
    have e2 : tr'.pallocs = (List.range (fullParts SAL ne es)).map
        (fun j => ((j + 1) * U32, SAL)) := by
      rw [hallocs, List.nil_append]
      exact map_range_congr _ _ _ (fun j hj => by
        have h5 : 0 + j + 1 = j + 1 := by omega
        rw [h5])
    rw [e2, hfrees, List.nil_append, hma]

/-! ### Characterization of the `vr_btable_get_address` scan -/

theorem containsOff_def (t : vr_btable) (i off : Nat) :
    containsOff t i off ↔
      ((t.vb_table_info.getD i zeroPartition).vb_offset ≤ off ∧
        off < ((t.vb_table_info.getD i zeroPartition).vb_offset +
          (t.vb_table_info.getD i zeroPartition).vb_mem_size) % U32) := Iff.rfl

theorem getAddressGo_found (MAXP : Nat) (t : vr_btable) (off istar : Nat)
    (hstar : istar < t.vb_partitions)
    (hstarM : istar < MAXP)
    (hc : containsOff t istar off)
    (hmin : ∀ j, j < istar → ¬containsOff t j off) :
    ∀ fuel i, i ≤ istar → istar < i + fuel →
      getAddressGo MAXP t off fuel i =
        some (t.vb_mem.getD istar 0 + (off - (infoAt t istar).vb_offset)) := by
  intro fuel
  induction fuel with
  | zero => intro i hi1 hi2; omega
  | succ fuel ih =>
    intro i hi1 hi2
    simp only [getAddressGo]
    rw [if_pos (by omega : i < t.vb_partitions)]
    unfold vr_btable_get_partition
    rw [if_neg (by omega : ¬i ≥ MAXP)]
    simp only []
    by_cases hcase : i = istar
    · rw [hcase, if_pos ((containsOff_def t istar off).mp hc)]
      rfl
    · rw [if_neg (fun hx =>
        hmin i (by omega) ((containsOff_def t i off).mpr hx))]
      exact ih (i + 1) (by omega) (by omega)

theorem getAddressGo_none (MAXP : Nat) (t : vr_btable) (off : Nat)
    (hnone : ∀ j, j < t.vb_partitions → ¬containsOff t j off) :
    ∀ fuel i, getAddressGo MAXP t off fuel i = none := by
  intro fuel
  induction fuel with
  | zero => intro i; rfl
  | succ fuel ih =>
    intro i
    simp only [getAddressGo]
    by_cases hiP : i < t.vb_partitions
    · rw [if_pos hiP]
      unfold vr_btable_get_partition
      by_cases hiM : i ≥ MAXP
      · rw [if_pos hiM]
      · rw [if_neg hiM]
        simp only []
        rw [if_neg (fun hx =>
          hnone i hiP ((containsOff_def t i off).mpr hx))]
        exact ih (i + 1)
    · rw [if_neg hiP]

/-! ### Claim theorems -/

/-- C1 (code bug): the C source multiplies the two 32-bit arguments in
32-bit arithmetic before widening into the `uint64_t` `total_mem`, so the
product silently truncates.  At `num_entries = entry_size = 65536` the
mathematical product `2^32` exceeds any configured
`VR_KNOWN_BIG_MEM_LIMIT` (here `2^25`), yet the truncated total is `0`:
the `TooLarge` check passes and creation succeeds with a degenerate
0-partition table instead of failing. -/
theorem c1_total_size_truncates :
    65536 * 65536 > 33554432 ∧
    (vr_btable_alloc 4096 33554432 16 alwaysOk true 65536 65536).1.isSome = true ∧
    (vr_btable_alloc 4096 33554432 16 alwaysOk true 65536 65536).2.pallocCalls = 0 := by
  refine ⟨by norm_num, by decide, by decide⟩

/-- C5 (code bug): when the partition plan needs more than
`VR_MAX_BTABLE_ENTRIES` partitions, `vr_btable_alloc` returns `NULL`
without requesting any block, but also without `vr_free`-ing the table
metadata it has just `vr_zalloc`ed — the metadata is leaked, contradicting
the claim that it is released.  Concrete run: `SAL = 4096`,
`MAXP = 16`, `num_entries = 17408`, `entry_size = 4` (17 planned
partitions). -/
theorem c5_too_many_partitions_leak :
    plannedParts 4096 17408 4 > 16 ∧
    (vr_btable_alloc 4096 33554432 16 alwaysOk true 17408 4).1 = none ∧
    (vr_btable_alloc 4096 33554432 16 alwaysOk true 17408 4).2.pallocCalls = 0 ∧
    (vr_btable_alloc 4096 33554432 16 alwaysOk true 17408 4).2.metaAllocd = true ∧
    (vr_btable_alloc 4096 33554432 16 alwaysOk true 17408 4).2.metaFreed = false := by
  refine ⟨by decide, by decide, by decide, by decide, by decide⟩

/-- C10: on the misaligned-entry-size path (`full_partitions > 0` and
`SINGLE_ALLOC_LIMIT % entry_size ≠ 0`, with the earlier guards passing),
`vr_btable_alloc` fails having made no `vr_page_alloc` call, with the
table metadata allocated (`metaAllocd = true`) but never released
(`metaFreed = false`) — unlike the block-failure path, which frees it. -/
theorem c10_misaligned_leak (SAL KBML MAXP : Nat) (oracle : Nat → Bool)
    (ne es : Nat)
    (hg1 : totalMem ne es ≤ KBML)
    (hg2 : plannedParts SAL ne es ≤ MAXP)
    (hnp : fullParts SAL ne es ≠ 0)
    (hmis : SAL % es ≠ 0) :
    vr_btable_alloc SAL KBML MAXP oracle true ne es =
      (none, ⟨0, [], [], true, false⟩) := by
  unfold vr_btable_alloc
  rw [if_neg (by omega : ¬totalMem ne es > KBML),
    if_neg (by simp : ¬(true = false))]
  simp only [Trace.empty]
  rw [if_neg (by omega : ¬plannedParts SAL ne es > MAXP), if_pos ⟨hnp, hmis⟩]

/-- C10 witness: `SAL = 4096`, `entry_size = 24` (misaligned),
`num_entries = 400` (two full partitions plus remainder). -/
theorem c10_misaligned_leak_witness :
    vr_btable_alloc 4096 33554432 16 alwaysOk true 400 24 =
      (none, ⟨0, [], [], true, false⟩) :=
  c10_misaligned_leak 4096 33554432 16 alwaysOk 400 24
    (by decide) (by decide) (by decide) (by decide)

/-- C9: when `entry_count * entry_size = 0`, creation succeeds (given the
metadata allocation succeeds) with a degenerate table: zero partitions,
no page allocation requested (the trace stays empty), and
`vr_btable_get_address` returns `NULL` for every logical offset. -/
theorem c9_degenerate_zero_table (SAL KBML MAXP : Nat) (oracle : Nat → Bool)
    (ne es : Nat) (h0 : ne * es = 0) :
    vr_btable_alloc SAL KBML MAXP oracle true ne es =
      (some ⟨List.replicate MAXP 0, List.replicate MAXP zeroPartition, 0, ne, es⟩,
        ⟨0, [], [], true, false⟩) ∧
    (∀ off, vr_btable_get_address MAXP
      ⟨List.replicate MAXP 0, List.replicate MAXP zeroPartition, 0, ne, es⟩
      off = none) := by
  have hT : totalMem ne es = 0 := by unfold totalMem; rw [h0]; simp
  have hnp : fullParts SAL ne es = 0 := by unfold fullParts; rw [hT]; simp
  have hrm : remMem SAL ne es = 0 := by unfold remMem; rw [hT]; simp
  have hpl : plannedParts SAL ne es = 0 := by unfold plannedParts; rw [hnp, hrm]; simp
  constructor
  · unfold vr_btable_alloc
    rw [if_neg (by omega : ¬totalMem ne es > KBML),
      if_neg (by simp : ¬(true = false))]
    simp only [Trace.empty]
    rw [if_neg (by omega : ¬plannedParts SAL ne es > MAXP),
      if_neg (by simp [hnp] : ¬(fullParts SAL ne es ≠ 0 ∧ SAL % es ≠ 0)),
      hnp]
    simp only [allocFull]
    rw [hrm]
    simp only [ne_eq, not_true_eq_false, if_neg]
    rfl
  · intro off
    unfold vr_btable_get_address
    exact getAddressGo_none MAXP _ off (fun j hj => absurd hj (by simp)) _ 0

/-- C9 witness: `entry_count = 0`, `entry_size = 16`. -/
theorem c9_degenerate_zero_table_witness :
    vr_btable_alloc 4096 33554432 8 alwaysOk true 0 16 =
      (some ⟨List.replicate 8 0, List.replicate 8 zeroPartition, 0, 0, 16⟩,
        ⟨0, [], [], true, false⟩) ∧
    vr_btable_get_address 8
      ⟨List.replicate 8 0, List.replicate 8 zeroPartition, 0, 0, 16⟩ 12345 = none := by
  have h := c9_degenerate_zero_table 4096 33554432 8 alwaysOk 0 16 (by norm_num)
  exact ⟨h.1, h.2 12345⟩

/-- C8: `vr_btable_free` is a no-op on an absent (`NULL`) handle; on a live
handle it scans all `VR_MAX_BTABLE_ENTRIES` slots (not just
`vb_partitions`), releases via `vr_page_free` exactly the slots holding a
non-`NULL` chunk — each with its recorded `vb_mem_size` — and finally
releases the table metadata. -/
theorem c8_destroy_scan (MAXP : Nat) :
    (∀ tr, vr_btable_free MAXP none tr = tr) ∧
    (∀ (t : vr_btable) (tr : Trace),
      vr_btable_free MAXP (some t) tr =
        { tr with
          pfrees := tr.pfrees ++ (List.range MAXP).filterMap
            (fun i => if t.vb_mem.getD i 0 ≠ 0 then
                some (t.vb_mem.getD i 0, (infoAt t i).vb_mem_size) else none),
          metaFreed := true }) :=
  ⟨fun tr => vr_btable_free_none MAXP tr, fun t tr => vr_btable_free_some MAXP t tr⟩

/-- C4: if the Block Provider's k-th page request (0-indexed `k`, i.e. the
(k+1)-th request) fails during creation, `vr_btable_alloc` fails, exactly
the `k` blocks allocated so far are freed with their recorded sizes (the
free list equals the allocation list), the provider's successful-allocate
count equals its free count, and the table metadata is released. -/
theorem c4_rollback (SAL KBML MAXP : Nat) (oracle : Nat → Bool) (ne es k : Nat)
    (hS : 0 < SAL)
    (hg1 : totalMem ne es ≤ KBML)
    (hg2 : plannedParts SAL ne es ≤ MAXP)
    (hg3 : fullParts SAL ne es ≠ 0 → SAL % es = 0)
    (hor : ∀ j, j < k → oracle j = true)
    (hk : oracle k = false)
    (hkp : k < plannedParts SAL ne es) :
    (vr_btable_alloc SAL KBML MAXP oracle true ne es).1 = none ∧
    (vr_btable_alloc SAL KBML MAXP oracle true ne es).2.pallocs.length = k ∧
    (vr_btable_alloc SAL KBML MAXP oracle true ne es).2.pfrees =
      (vr_btable_alloc SAL KBML MAXP oracle true ne es).2.pallocs ∧
    (vr_btable_alloc SAL KBML MAXP oracle true ne es).2.pallocCalls = k + 1 ∧
    (vr_btable_alloc SAL KBML MAXP oracle true ne es).2.metaAllocd = true ∧
    (vr_btable_alloc SAL KBML MAXP oracle true ne es).2.metaFreed = true := by
  rw [alloc_fail_char SAL KBML MAXP oracle ne es k hS hg1 hg2 hg3 hor hk hkp]
  refine ⟨rfl, by simp, rfl, rfl, rfl, rfl⟩

/-- C4 witness: spec example geometry (4 planned partitions), provider
fails on the third request (k = 2): two blocks allocated and both freed. -/
theorem c4_rollback_witness :
    (vr_btable_alloc 4096 33554432 16 (failsFrom 2) true 1024 16).1 = none ∧
    (vr_btable_alloc 4096 33554432 16 (failsFrom 2) true 1024 16).2.pallocs.length = 2 ∧
    (vr_btable_alloc 4096 33554432 16 (failsFrom 2) true 1024 16).2.pfrees =
      (vr_btable_alloc 4096 33554432 16 (failsFrom 2) true 1024 16).2.pallocs ∧
    (vr_btable_alloc 4096 33554432 16 (failsFrom 2) true 1024 16).2.pallocCalls = 3 ∧
    (vr_btable_alloc 4096 33554432 16 (failsFrom 2) true 1024 16).2.metaAllocd = true ∧
    (vr_btable_alloc 4096 33554432 16 (failsFrom 2) true 1024 16).2.metaFreed = true :=
  c4_rollback 4096 33554432 16 (failsFrom 2) 1024 16 2 (by norm_num)
    (by decide) (by decide) (by decide)
    (fun j hj => decide_eq_true hj) (by decide) (by decide)

/-- C6: given a non-truncating product (`entry_count * entry_size < 2^32`)
and a positive entry size, needing more than one partition while
`SINGLE_ALLOC_LIMIT % entry_size ≠ 0` is equivalent to the code's guard
`full_partitions > 0` with the same misalignment; and in that situation
creation fails before any block is requested. -/
theorem c6_misaligned_guard (SAL KBML MAXP : Nat) (oracle : Nat → Bool)
    (metaOk : Bool) (ne es : Nat) (hS : 0 < SAL) (hes : 0 < es)
    (hProd : ne * es < U32) :
    ((2 ≤ plannedParts SAL ne es ∧ SAL % es ≠ 0) ↔
      (0 < fullParts SAL ne es ∧ SAL % es ≠ 0)) ∧
    (2 ≤ plannedParts SAL ne es → SAL % es ≠ 0 →
      (vr_btable_alloc SAL KBML MAXP oracle metaOk ne es).1 = none ∧
      (vr_btable_alloc SAL KBML MAXP oracle metaOk ne es).2.pallocCalls = 0) := by
  have hplan := plannedParts_eq SAL ne es hS
  have hT : totalMem ne es = ne * es := by
    unfold totalMem; exact Nat.mod_eq_of_lt hProd
  have hiff : (2 ≤ plannedParts SAL ne es ∧ SAL % es ≠ 0) ↔
      (0 < fullParts SAL ne es ∧ SAL % es ≠ 0) := by
    constructor
    · rintro ⟨h2, hmis⟩
      refine ⟨?_, hmis⟩
      rw [hplan] at h2
      by_cases hr : remMem SAL ne es ≠ 0
      · rw [if_pos hr] at h2; omega
      · rw [if_neg hr] at h2; omega
    · rintro ⟨hnp, hmis⟩
      refine ⟨?_, hmis⟩
      by_cases hr : remMem SAL ne es ≠ 0
      · rw [hplan, if_pos hr]; omega
      · have hrem0 : remMem SAL ne es = 0 := by omega
        rw [hplan, if_neg hr]
        by_contra hlt
        have hnp1 : fullParts SAL ne es = 1 := by omega
        have hdc := total_decomp SAL ne es
        rw [hnp1, hrem0] at hdc
        have hTS : totalMem ne es = SAL := by
          have h5 : 1 * SAL = SAL := by ring
          omega
        have hdvd : es ∣ SAL := by
          rw [← hTS, hT]
          exact dvd_mul_left es ne
        obtain ⟨c, hc⟩ := hdvd
        rw [hc] at hmis
        exact hmis (Nat.mul_mod_right es c)
  refine ⟨hiff, fun h2 hmis => ?_⟩
  have hnp : 0 < fullParts SAL ne es := (hiff.mp ⟨h2, hmis⟩).1
  unfold vr_btable_alloc
  by_cases hg1 : totalMem ne es > KBML
  · rw [if_pos hg1]; exact ⟨rfl, rfl⟩
  rw [if_neg hg1]
  by_cases hm : metaOk = false
  · rw [if_pos hm]; exact ⟨rfl, rfl⟩
  rw [if_neg hm]
  simp only [Trace.empty]
  by_cases hg2 : plannedParts SAL ne es > MAXP
  · rw [if_pos hg2]; exact ⟨rfl, rfl⟩
  rw [if_neg hg2, if_pos ⟨by omega, hmis⟩]
  exact ⟨rfl, rfl⟩

/-- C6 witness: `SAL = 4096`, `entry_size = 24` (`4096 % 24 = 16 ≠ 0`),
`entry_count = 400` (three planned partitions). -/
theorem c6_misaligned_guard_witness :
    ((2 ≤ plannedParts 4096 400 24 ∧ 4096 % 24 ≠ 0) ↔
      (0 < fullParts 4096 400 24 ∧ 4096 % 24 ≠ 0)) ∧
    (vr_btable_alloc 4096 33554432 16 alwaysOk true 400 24).1 = none ∧
    (vr_btable_alloc 4096 33554432 16 alwaysOk true 400 24).2.pallocCalls = 0 := by
  have h := c6_misaligned_guard 4096 33554432 16 alwaysOk true 400 24
    (by norm_num) (by norm_num) (by decide)
  exact ⟨h.1, h.2 (by decide) (by decide)⟩

/-- C7: `vr_btable_get_partition` returns `NULL` exactly for indices at or
above the fixed capacity `VR_MAX_BTABLE_ENTRIES`; for an index below
`vb_partitions` of a successfully created table it returns that
partition's descriptor, and for an index between `vb_partitions` and the
capacity it returns the zero-size descriptor (an unused slot).  The
operation is a pure function of the table in this embedding. -/
theorem c7_partition_lookup (SAL KBML MAXP : Nat) (oracle : Nat → Bool)
    (metaOk : Bool) (ne es : Nat) (t : vr_btable) (tr : Trace) (hS : 0 < SAL)
    (h : vr_btable_alloc SAL KBML MAXP oracle metaOk ne es = (some t, tr)) :
    ∀ idx,
      (vr_btable_get_partition MAXP t idx = none ↔ MAXP ≤ idx) ∧
      (idx < t.vb_partitions →
        vr_btable_get_partition MAXP t idx = some (infoAt t idx)) ∧
      (t.vb_partitions ≤ idx → idx < MAXP →
        vr_btable_get_partition MAXP t idx = some zeroPartition) := by
  obtain ⟨-, -, hplanM, -, hpart, -, -, hinfo, -, -, -, -, -, -, -, -⟩ :=
    alloc_some_char SAL KBML MAXP oracle metaOk ne es t tr hS h
  have hplan := plannedParts_eq SAL ne es hS
  intro idx
  refine ⟨?_, ?_, ?_⟩
  · unfold vr_btable_get_partition
    by_cases hidx : idx ≥ MAXP
    · rw [if_pos hidx]
      exact ⟨fun _ => hidx, fun _ => rfl⟩
    · rw [if_neg hidx]
      exact ⟨fun hx => absurd hx (by simp), fun hge => absurd hge hidx⟩
  · intro hlt
    have hidxM : idx < MAXP := by omega
    unfold vr_btable_get_partition
    rw [if_neg (by omega : ¬idx ≥ MAXP)]
    rfl
  · intro hge hltM
    unfold vr_btable_get_partition
    rw [if_neg (by omega : ¬idx ≥ MAXP)]
    have hnp : fullParts SAL ne es ≤ t.vb_partitions := by
      rw [hpart, hplan]
      by_cases hr : remMem SAL ne es ≠ 0
      · rw [if_pos hr]; omega
      · rw [if_neg hr]; omega
    have hz : infoAt t idx = zeroPartition := by
      rw [hinfo idx, if_neg (by omega : ¬idx < fullParts SAL ne es),
        if_neg ?_]
      rintro ⟨hidxnp, hr⟩
      rw [hpart, hplan, if_pos hr] at hge
      omega
    unfold infoAt at hz
    rw [hz]

/-- C7 witness: on the four-partition example table, index 20 is beyond
capacity, index 2 is a live partition, index 10 an unused zero slot. -/
theorem c7_partition_lookup_witness :
    vr_btable_get_partition 16 tbl4 20 = none ∧
    vr_btable_get_partition 16 tbl4 2 = some (infoAt tbl4 2) ∧
    vr_btable_get_partition 16 tbl4 10 = some zeroPartition := by
  have heq : vr_btable_alloc 4096 33554432 16 alwaysOk true 1024 16 =
      (some tbl4, tr4) := by decide
  have h := c7_partition_lookup 4096 33554432 16 alwaysOk true 1024 16 tbl4 tr4
    (by norm_num) heq
  exact ⟨(h 20).1.mpr (by norm_num), (h 2).2.1 (by decide),
    (h 10).2.2 (by decide) (by decide)⟩

/-- C2 counterexample: at `entry_count = entry_size = 65536` creation
succeeds (the 32-bit product truncates to 0), the partition sizes sum to
0, but the mathematical `entry_count * entry_size` is `2^32 ≠ 0` — so the
sum does not equal the mathematical product. -/
theorem c2_sum_counterexample :
    (vr_btable_alloc 4096 33554432 16 alwaysOk true 65536 65536).1.map sumSizes =
      some 0 ∧
    65536 * 65536 ≠ (0 : Nat) := by
  refine ⟨by decide, by norm_num⟩

/-- C2 (amended): for every table returned by a successful create,
partition 0 has logical offset 0, each later partition starts where the
previous one ends, the partition count is at most the capacity, and the
partition sizes sum to the 32-bit truncated product
`(entry_count * entry_size) % 2^32` — the total the code actually uses
(equal to the mathematical product whenever that is below `2^32`). -/
theorem c2_layout_invariants (SAL KBML MAXP : Nat) (oracle : Nat → Bool)
    (metaOk : Bool) (ne es : Nat) (t : vr_btable) (tr : Trace) (hS : 0 < SAL)
    (h : vr_btable_alloc SAL KBML MAXP oracle metaOk ne es = (some t, tr)) :
    (0 < t.vb_partitions → (infoAt t 0).vb_offset = 0) ∧
    (∀ i, i + 1 < t.vb_partitions →
      (infoAt t (i + 1)).vb_offset =
        (infoAt t i).vb_offset + (infoAt t i).vb_mem_size) ∧
    sumSizes t = (ne * es) % U32 ∧
    t.vb_partitions ≤ MAXP := by
  obtain ⟨-, -, hplanM, -, hpart, -, -, hinfo, -, -, -, -, -, -, -, -⟩ :=
    alloc_some_char SAL KBML MAXP oracle metaOk ne es t tr hS h
  have hplan := plannedParts_eq SAL ne es hS
  have hdc := total_decomp SAL ne es
  have hpartsplit : t.vb_partitions = fullParts SAL ne es +
      (if remMem SAL ne es ≠ 0 then 1 else 0) := by rw [hpart, hplan]
  refine ⟨?_, ?_, ?_, by omega⟩
  · intro hpos
    rw [hinfo 0]
    by_cases h0 : 0 < fullParts SAL ne es
    · rw [if_pos h0]
      show 0 * SAL = 0
      ring
    · have hnp0 : fullParts SAL ne es = 0 := by omega
      have hr : remMem SAL ne es ≠ 0 := by
        by_contra hr0
        rw [if_neg (fun hx => hx hr0)] at hpartsplit
        omega
      rw [if_neg (by omega), if_pos ⟨hnp0.symm, hr⟩]
      show fullParts SAL ne es * SAL = 0
      rw [hnp0]
      ring
  · intro i hi
    have hiBound : i + 1 ≤ fullParts SAL ne es := by
      by_cases hr : remMem SAL ne es ≠ 0
      · rw [if_pos hr] at hpartsplit; omega
      · rw [if_neg hr] at hpartsplit; omega
    by_cases hi1 : i + 1 < fullParts SAL ne es
    · rw [hinfo (i + 1), hinfo i, if_pos hi1, if_pos (by omega)]
      show (i + 1) * SAL = i * SAL + SAL
      ring
    · have hieq : i + 1 = fullParts SAL ne es := by omega
      have hr : remMem SAL ne es ≠ 0 := by
        by_contra hr0
        rw [if_neg (fun hx => hx hr0)] at hpartsplit
        omega
      rw [hinfo (i + 1), hinfo i, if_neg (by omega), if_pos ⟨hieq, hr⟩,
        if_pos (by omega)]
      show fullParts SAL ne es * SAL = i * SAL + SAL
      rw [← hieq]
      ring
  · show sumSizes t = totalMem ne es
    have hsfull : ∀ m, m ≤ fullParts SAL ne es →
        ((List.range m).map fun j => (infoAt t j).vb_mem_size).sum = m * SAL := by
      intro m
      induction m with
      | zero => intro _; simp
      | succ m ih =>
        intro hm
        rw [sum_map_range_succ, ih (by omega), hinfo m, if_pos (by omega)]
        show m * SAL + SAL = (m + 1) * SAL
        ring
    unfold sumSizes
    by_cases hr : remMem SAL ne es ≠ 0
    · rw [if_pos hr] at hpartsplit
      rw [hpartsplit, sum_map_range_succ, hsfull (fullParts SAL ne es) le_rfl,
        hinfo (fullParts SAL ne es), if_neg (by omega), if_pos ⟨rfl, hr⟩]
      show fullParts SAL ne es * SAL + remMem SAL ne es = totalMem ne es
      omega
    · rw [if_neg hr] at hpartsplit
      rw [hpartsplit]
      have h5 : fullParts SAL ne es + 0 = fullParts SAL ne es := by omega
      rw [h5, hsfull (fullParts SAL ne es) le_rfl]
      omega

/-- C2 witness: the spec's four-partition example (1024 entries of 16
bytes, `SAL = 4096`). -/
theorem c2_layout_invariants_witness :
    vr_btable_alloc 4096 33554432 16 alwaysOk true 1024 16 = (some tbl4, tr4) ∧
    (infoAt tbl4 0).vb_offset = 0 ∧
    (infoAt tbl4 2).vb_offset = (infoAt tbl4 1).vb_offset +
      (infoAt tbl4 1).vb_mem_size ∧
    sumSizes tbl4 = (1024 * 16) % U32 ∧
    tbl4.vb_partitions ≤ 16 := by
  have heq : vr_btable_alloc 4096 33554432 16 alwaysOk true 1024 16 =
      (some tbl4, tr4) := by decide
  have h := c2_layout_invariants 4096 33554432 16 alwaysOk true 1024 16 tbl4 tr4
    (by norm_num) heq
  exact ⟨heq, h.1 (by decide), h.2.1 1 (by decide), h.2.2.1, h.2.2.2⟩

/-- C3 counterexample: at `entry_count = entry_size = 65536` creation
succeeds with a 0-partition table (32-bit truncation), so offset 0 — which
lies in `[0, entry_count * entry_size)` mathematically — translates to
`NULL` instead of a non-null address. -/
theorem c3_range_counterexample :
    (vr_btable_alloc 4096 33554432 16 alwaysOk true 65536 65536).1.map
      (fun t => vr_btable_get_address 16 t 0) = some none ∧
    (0 : Nat) < 65536 * 65536 := by
  refine ⟨by decide, by norm_num⟩

/-- C3 (amended): for every successfully created table and every logical
offset below the table's actual total size — the 32-bit truncated product
`(entry_count * entry_size) % 2^32`, equal to the mathematical product
whenever that fits in 32 bits — `vr_btable_get_address` returns the
non-null address `vb_mem[i] + (offset - vb_offset_i)` of the first
partition (in index order) whose range contains the offset; for every
offset at or above that total it returns `NULL`. -/
theorem c3_address_translation (SAL KBML MAXP : Nat) (oracle : Nat → Bool)
    (metaOk : Bool) (ne es : Nat) (t : vr_btable) (tr : Trace) (off : Nat)
    (hS : 0 < SAL)
    (h : vr_btable_alloc SAL KBML MAXP oracle metaOk ne es = (some t, tr)) :
    (off < totalMem ne es →
      ∃ i, i < t.vb_partitions ∧ containsOff t i off ∧
        (∀ j, j < i → ¬containsOff t j off) ∧
        vr_btable_get_address MAXP t off =
          some (t.vb_mem.getD i 0 + (off - (infoAt t i).vb_offset)) ∧
        t.vb_mem.getD i 0 + (off - (infoAt t i).vb_offset) ≠ 0) ∧
    (totalMem ne es ≤ off → vr_btable_get_address MAXP t off = none) := by
  obtain ⟨-, -, hplanM, -, hpart, -, -, hinfo, hmem, -, -, -, -, -, -, -⟩ :=
    alloc_some_char SAL KBML MAXP oracle metaOk ne es t tr hS h
  have hplan := plannedParts_eq SAL ne es hS
  have hdc := total_decomp SAL ne es
  have hTu := totalMem_lt ne es
  have hremS := rem_lt_SAL SAL ne es hS
  have hpartsplit : t.vb_partitions = fullParts SAL ne es +
      (if remMem SAL ne es ≠ 0 then 1 else 0) := by rw [hpart, hplan]
  have hnpmul := fullParts_mul_le SAL ne es
  have hfullub : ∀ j, j + 1 ≤ fullParts SAL ne es → j * SAL + SAL < U32 := by
    intro j hj
    have h7 : (j + 1) * SAL ≤ fullParts SAL ne es * SAL :=
      Nat.mul_le_mul_right SAL hj
    have h9 : (j + 1) * SAL = j * SAL + SAL := by ring
    omega
  constructor
  · intro hofflt
    by_cases hcase : off < fullParts SAL ne es * SAL
    · have histar : off / SAL < fullParts SAL ne es :=
        (Nat.div_lt_iff_lt_mul hS).mpr hcase
      have hle : off / SAL * SAL ≤ off := Nat.div_mul_le_self off SAL
      have hup : off < off / SAL * SAL + SAL := by
        have h5 := Nat.div_add_mod off SAL
        have h6 : off % SAL < SAL := Nat.mod_lt _ hS
        rw [Nat.mul_comm] at h5
        omega
      have hinfoI : infoAt t (off / SAL) = ⟨off / SAL * SAL, SAL⟩ := by
        rw [hinfo (off / SAL), if_pos histar]
      have hiParts : off / SAL < t.vb_partitions := by
        by_cases hr : remMem SAL ne es ≠ 0
        · rw [if_pos hr] at hpartsplit; omega
        · rw [if_neg hr] at hpartsplit; omega
      have hcont : containsOff t (off / SAL) off := by
        unfold containsOff
        rw [hinfoI]
        refine ⟨hle, ?_⟩
        show off < (off / SAL * SAL + SAL) % U32
        rw [Nat.mod_eq_of_lt (hfullub (off / SAL) (by omega))]
        exact hup
      have hmin : ∀ j, j < off / SAL → ¬containsOff t j off := by
        intro j hj
        unfold containsOff
        rw [hinfo j, if_pos (by omega)]
        rintro ⟨-, h2⟩
        rw [Nat.mod_eq_of_lt (hfullub j (by omega))] at h2
        have h7 : (j + 1) * SAL ≤ off / SAL * SAL :=
          Nat.mul_le_mul_right SAL (by omega)
        have h9 : (j + 1) * SAL = j * SAL + SAL := by ring
        omega
      refine ⟨off / SAL, hiParts, hcont, hmin, ?_, ?_⟩
      · unfold vr_btable_get_address
        exact getAddressGo_found MAXP t off (off / SAL) hiParts (by omega)
          hcont hmin t.vb_partitions 0 (Nat.zero_le _) (by omega)
      · rw [hmem (off / SAL), if_pos hiParts]
        have h7 : (off / SAL + 1) * U32 ≠ 0 :=
          Nat.mul_ne_zero (Nat.succ_ne_zero _) U32_pos.ne'
        omega
    · have hnple : fullParts SAL ne es * SAL ≤ off := Nat.le_of_not_lt hcase
      have hrem0 : remMem SAL ne es ≠ 0 := by
        intro hx
        rw [hx] at hdc
        omega
      have hpartsEq : t.vb_partitions = fullParts SAL ne es + 1 := by
        rw [if_pos hrem0] at hpartsplit
        exact hpartsplit
      have hinfoN : infoAt t (fullParts SAL ne es) =
          ⟨fullParts SAL ne es * SAL, remMem SAL ne es⟩ := by
        rw [hinfo (fullParts SAL ne es), if_neg (by omega), if_pos ⟨rfl, hrem0⟩]
      have hcont : containsOff t (fullParts SAL ne es) off := by
        unfold containsOff
        rw [hinfoN]
        refine ⟨hnple, ?_⟩
        show off < (fullParts SAL ne es * SAL + remMem SAL ne es) % U32
        rw [Nat.mod_eq_of_lt (by omega)]
        omega
      have hmin : ∀ j, j < fullParts SAL ne es → ¬containsOff t j off := by
        intro j hj
        unfold containsOff
        rw [hinfo j, if_pos hj]
        rintro ⟨-, h2⟩
        rw [Nat.mod_eq_of_lt (hfullub j (by omega))] at h2
        have h7 : (j + 1) * SAL ≤ fullParts SAL ne es * SAL :=
          Nat.mul_le_mul_right SAL (by omega)
        have h9 : (j + 1) * SAL = j * SAL + SAL := by ring
        omega
      refine ⟨fullParts SAL ne es, by omega, hcont, hmin, ?_, ?_⟩
      · unfold vr_btable_get_address
        exact getAddressGo_found MAXP t off (fullParts SAL ne es) (by omega)
          (by omega) hcont hmin t.vb_partitions 0 (Nat.zero_le _) (by omega)
      · rw [hmem (fullParts SAL ne es), if_pos (by omega)]
        have h7 : (fullParts SAL ne es + 1) * U32 ≠ 0 :=
          Nat.mul_ne_zero (Nat.succ_ne_zero _) U32_pos.ne'
        omega
  · intro hoffge
    unfold vr_btable_get_address
    apply getAddressGo_none
    intro j hj
    unfold containsOff
    rw [hinfo j]
    by_cases hjn : j < fullParts SAL ne es
    · rw [if_pos hjn]
      rintro ⟨-, h2⟩
      rw [Nat.mod_eq_of_lt (hfullub j (by omega))] at h2
      have h7 : (j + 1) * SAL ≤ fullParts SAL ne es * SAL :=
        Nat.mul_le_mul_right SAL (by omega)
      have h9 : (j + 1) * SAL = j * SAL + SAL := by ring
      omega
    · by_cases hj2 : j = fullParts SAL ne es ∧ remMem SAL ne es ≠ 0
      · rw [if_neg hjn, if_pos hj2]
        rintro ⟨-, h2⟩
        have h3 : off < (fullParts SAL ne es * SAL + remMem SAL ne es) % U32 := h2
        rw [Nat.mod_eq_of_lt (by omega)] at h3
        omega
      · rw [if_neg hjn, if_neg hj2]
        rintro ⟨-, h2⟩
        revert h2
        show ¬(off < (zeroPartition.vb_offset + zeroPartition.vb_mem_size) % U32)
        unfold zeroPartition
        simp

/-- C3 witness: on the four-partition example table, offset 5000 resolves
to a non-null address (partition 1, local offset 904 per the spec's
example) and offset 20000 — at or beyond the 16384-byte total — resolves
to `NULL`. -/
theorem c3_address_translation_witness :
    (vr_btable_get_address 16 tbl4 5000).isSome = true ∧
    vr_btable_get_address 16 tbl4 20000 = none := by
  have heq : vr_btable_alloc 4096 33554432 16 alwaysOk true 1024 16 =
      (some tbl4, tr4) := by decide
  have h1 := (c3_address_translation 4096 33554432 16 alwaysOk true 1024 16
    tbl4 tr4 5000 (by norm_num) heq).1 (by decide)
  have h2 := (c3_address_translation 4096 33554432 16 alwaysOk true 1024 16
    tbl4 tr4 20000 (by norm_num) heq).2 (by decide)
  obtain ⟨i, -, -, -, hval, -⟩ := h1
  exact ⟨by rw [hval]; rfl, h2⟩
